import Mathlib

/-!
A shallow embedding of the statistical anomaly-detection pipeline of the
`rct-checker` repository (`src/statistical_analysis/pipeline.py`,
`statistical_tests.py`, `utils.py`, and the wide-table projection
`to_csv_wide` in `src/table_extraction/utils.py`).

Modelling conventions:
* Python floats are modelled as rationals `ℚ`; a pandas cell that is
  missing (`None` / `NaN`) is `none : Option ℚ`.  Pandas uses `NaN` both as
  the missing-value marker and as the result of arithmetic on missing
  values, so `Option ℚ` arithmetic propagates `none` exactly as `NaN`
  propagates.
* `np.sqrt` on a sample size, the scipy chi-squared CDF `chi2.cdf`, scipy's
  `fisher_exact` and `combine_pvalues` are external library functions; they
  are passed as explicit function parameters (`sq`, `F`, `fisherExact`,
  `combine_pvalues`).  Theorems that need a property of them (e.g. that a
  CDF takes values in [0,1], or that `sqrt` of a positive integer is
  positive) state it as a hypothesis.
* Python `raise ValueError(msg)` is modelled as `Except.error msg`.
* A pandas DataFrame is a list of typed records.  The column sets that the
  source derives by regex over column names (`filter(regex="(mean)")` etc.)
  are, for schema-conformant input, exactly the per-group fields of the
  declared groups, so the model iterates the declared group ids directly.
-/

/-- Arithmetic on possibly-missing values: `NaN` (here `none`) propagates,
as in numpy/pandas element-wise arithmetic. -/
def omap2 (f : ℚ → ℚ → ℚ) : Option ℚ → Option ℚ → Option ℚ
  | some a, some b => some (f a b)
  | _, _ => none

/-- One `ValueEntry` of the extraction JSON: per (row, group) reported
statistics, every numeric field independently nullable (schema
`table_extraction/config/schema.py`; spec data model).  `count` is coerced
to integer by `to_csv_wide` (`_to_numeric(..., as_int=True)`). -/
structure ValueEntry where
  group_id : String
  original : String
  mean : Option ℚ
  median : Option ℚ
  count : Option ℤ
  IQR_lower : Option ℚ
  IQR_upper : Option ℚ
  CI95_lower : Option ℚ
  CI95_upper : Option ℚ
  sd : Option ℚ
  pvalue : Option ℚ

/-- One row of the extraction JSON (`json_data["rows"][i]`).  `varName`
models the JSON key `"variable"` (a Lean keyword). -/
structure JsonRow where
  varName : String
  variable_type : String
  level : Option String
  values : List ValueEntry

/-- One declared group (`json_data["groups"][i]`). -/
structure TrialGroup where
  group_id : String
  label : String
  sample_size : ℤ

/-- The extraction JSON consumed by `run_test_pipeline`. -/
structure JsonData where
  groups : List TrialGroup
  rows : List JsonRow

/-- A wide-format record: one row of the DataFrame built by `to_csv_wide`.
`idx` is the pandas `RangeIndex` label (`row.name`), which the filters of
the pipeline preserve.  The per-group columns `"{gid} (mean)"`, ... are
modelled as functions from the group id. -/
structure WideRow where
  idx : ℕ
  Variable : String
  VariableType : String
  original : String → Option String
  mean : String → Option ℚ
  median : String → Option ℚ
  count : String → Option ℤ
  IQR_lower : String → Option ℚ
  IQR_upper : String → Option ℚ
  CI95_lower : String → Option ℚ
  CI95_upper : String → Option ℚ
  sd : String → Option ℚ
  pvalue : String → Option ℚ

/-- Finds the value entry of a row for a given group id (group ids are
unique per schema, so first match is the match). -/
def findEntry (vs : List ValueEntry) (g : String) : Option ValueEntry :=
  vs.find? (fun v => v.group_id == g)

/-- One row of `to_csv_wide`: the `Variable` column is the variable name,
suffixed with `" ({level})"` only for categorical rows (a missing level
prints as Python `None`). -/
def mkWideRow (idx : ℕ) (r : JsonRow) : WideRow where
  idx := idx
  Variable := r.varName ++
    (if r.variable_type == "Categorical" then
      " (" ++ (match r.level with | some l => l | none => "None") ++ ")"
    else "")
  VariableType := r.variable_type
  original := fun g => (findEntry r.values g).map (fun v => v.original)
  mean := fun g => (findEntry r.values g).bind (fun v => v.mean)
  median := fun g => (findEntry r.values g).bind (fun v => v.median)
  count := fun g => (findEntry r.values g).bind (fun v => v.count)
  IQR_lower := fun g => (findEntry r.values g).bind (fun v => v.IQR_lower)
  IQR_upper := fun g => (findEntry r.values g).bind (fun v => v.IQR_upper)
  CI95_lower := fun g => (findEntry r.values g).bind (fun v => v.CI95_lower)
  CI95_upper := fun g => (findEntry r.values g).bind (fun v => v.CI95_upper)
  sd := fun g => (findEntry r.values g).bind (fun v => v.sd)
  pvalue := fun g => (findEntry r.values g).bind (fun v => v.pvalue)

/-- Models `to_csv_wide(json_data, out_path=None)`: one wide record per input row,
in input order, indexed 0,1,2,... -/
def to_csv_wide (json : JsonData) : List WideRow :=
  (List.enum json.rows).map (fun p => mkWideRow p.1 p.2)

/-- Models `np.var(xs, ddof=1)`: the unbiased sample variance,
`sum((x - mean)^2) / (n - 1)`. -/
def sampleVar (xs : List ℚ) : ℚ :=
  let n : ℚ := xs.length
  let m : ℚ := xs.sum / n
  ((xs.map (fun x => (x - m) ^ 2)).sum) / (n - 1)

/-- Models `chi_square_variance_test(zscores, sigma0=1.0)`
(`statistical_tests.py`).  `F d x` models `scipy.stats.chi2.cdf(x, df=d)`.
The input list may contain `NaN` entries (`none`); the source's
`np.isnan/np.isinf` guard rejects them (the `ℚ` model has no infinities,
so `none` covers the whole guard). -/
def chi_square_variance_test (F : ℕ → ℚ → ℚ) (zscores : List (Option ℚ))
    (sigma0 : ℚ := 1) : Except String (ℚ × ℚ) :=
  if zscores.length = 0 then
    .error "zscores must not be empty"
  else if zscores.length < 2 then
    .error "zscores must have at least 2 elements to compute variance"
  else if zscores.any (fun z => z.isNone) then
    .error "zscores contains NaN or infinite values"
  else if sigma0 ≤ 0 then
    .error "sigma0 must be positive"
  else
    let zs := zscores.reduceOption
    let n := zscores.length
    let sample_var := sampleVar zs
    let chi2_stat : ℚ := ((n - 1 : ℕ) : ℚ) * sample_var / sigma0 ^ 2
    let p_value : ℚ :=
      2 * min (F (n - 1) chi2_stat) (1 - F (n - 1) chi2_stat)
    .ok (p_value, chi2_stat)

/-- State of one continuous row inside `process_continuous_variables_mean`:
the base wide record plus the computed `population_mean` column and the
per-group `sd` (possibly imputed), `sem` and `zscore` columns the loop
assigns. -/
structure ContRow where
  row : WideRow
  population_mean : Option ℚ
  sdCol : String → Option ℚ
  semCol : String → Option ℚ
  zCol : String → Option ℚ

/-- Point update of a per-group column (a pandas `loc` column assignment). -/
def updateFn (f : String → Option ℚ) (g : String) (v : Option ℚ) :
    String → Option ℚ :=
  fun g2 => if g2 = g then v else f g2

/-- Models `mean_df[mean_cols].mean(axis=1)`: pandas row mean with `skipna=True`;
it is `NaN` (here `none`) only when every group mean is missing. -/
def popMean (gids : List String) (r : WideRow) : Option ℚ :=
  let ms := gids.filterMap r.mean
  if ms.isEmpty then none else some (ms.sum / (ms.length : ℚ))

/-- The rows retained by the continuous engine: `Variable type ==
"Continuous"` and at least one group mean present
(`notna().any(axis=1)` over the mean columns). -/
def contRetained (df : List WideRow) (gids : List String) : List WideRow :=
  (df.filter (fun r => r.VariableType == "Continuous")).filter
    (fun r => gids.any (fun g => (r.mean g).isSome))

/-- Initial per-row state: `sd` column copied from the data, `sem`/`zscore`
columns not yet created. -/
def initContRow (gids : List String) (r : WideRow) : ContRow :=
  { row := r, population_mean := popMean gids r, sdCol := r.sd,
    semCol := fun _ => none, zCol := fun _ => none }

/-- The SD imputed from the 95%-CI bounds:
`(ci_upper - ci_lower) / (2 * 1.96) * sqrt(sample_size[group])`
(missing bounds propagate to `none`; that case is excluded by the error
guard before imputation). -/
def imputedSd (sq : ℤ → ℚ) (n : ℤ) (r : ContRow) (g : String) : Option ℚ :=
  omap2 (fun u l => (u - l) / (2 * (196 / 100)) * sq n)
    (r.row.CI95_upper g) (r.row.CI95_lower g)

/-- The masked `loc` assignment `mean_df.loc[missing_sd_mask, sd_col] = ...`
seen row-wise: rows whose sd is present are untouched. -/
def imputeRow (sq : ℤ → ℚ) (g : String) (n : ℤ) (r : ContRow) : ContRow :=
  if (r.sdCol g).isNone then
    { r with sdCol := updateFn r.sdCol g (imputedSd sq n r g) }
  else r

/-- Models `sem = mean_df[sd_col] / np.sqrt(sample_size[group])`, per row. -/
def semOf (sq : ℤ → ℚ) (n : ℤ) (r : ContRow) (g : String) : Option ℚ :=
  (r.sdCol g).map (fun sd => sd / sq n)

/-- Models `zscore = (mean_df[mean_col] - mean_df["population_mean"]) / sem`:
pandas arithmetic, `NaN` propagates through every operand. -/
def zOf (sq : ℤ → ℚ) (n : ℤ) (r : ContRow) (g : String) : Option ℚ :=
  match r.row.mean g, r.population_mean, semOf sq n r g with
  | some m, some pm, some s => some ((m - pm) / s)
  | _, _, _ => none

/-- The column assignments `mean_df[z_col] = zscore; mean_df[sem_col] = sem`
for one group, per row. -/
def assignSemZ (sq : ℤ → ℚ) (g : String) (n : ℤ) (r : ContRow) : ContRow :=
  { r with semCol := updateFn r.semCol g (semOf sq n r g),
           zCol := updateFn r.zCol g (zOf sq n r g) }

/-- The full effect of one iteration of the per-group loop on one row. -/
def stepRow (sq : ℤ → ℚ) (g : String) (n : ℤ) (r : ContRow) : ContRow :=
  assignSemZ sq g n (imputeRow sq g n r)

/-- One iteration of the per-group loop of
`process_continuous_variables_mean` over all rows:
1. if some row has `sd` missing and a missing CI bound, raise
   (the source guards this check by `mean_df[sd_col].isna().any()`, which
   is implied by the inner condition, so the guard is redundant);
2. impute missing sds from the CI bounds (identity on rows with sd
   present, like the masked `loc` assignment);
3. if any row's `sem` is zero, raise (pandas `(sem == 0).any()`; a `NaN`
   sem compares unequal to 0, matching `none ≠ some 0`);
4. assign the `sem` and `zscore` columns. -/
def processGroup (sq : ℤ → ℚ) (g : String) (n : ℤ) (rows : List ContRow) :
    Except String (List ContRow) :=
  if rows.any (fun r => (r.sdCol g).isNone &&
      ((r.row.CI95_lower g).isNone || (r.row.CI95_upper g).isNone)) then
    .error ("Cannot compute SD for " ++ g ++
      ": both SD and confidence intervals are missing")
  else
    if (rows.map (imputeRow sq g n)).any (fun r => decide (semOf sq n r g = some 0)) then
      .error ("SEM is zero for group " ++ g ++ ", cannot compute z-scores")
    else
      .ok ((rows.map (imputeRow sq g n)).map (assignSemZ sq g n))

/-- The `for group in group_ids:` loop: sequential processing with the
first raised error propagating. -/
def foldGroups (sq : ℤ → ℚ) : List (String × ℤ) → List ContRow →
    Except String (List ContRow)
  | [], rows => .ok rows
  | p :: ps, rows =>
    match processGroup sq p.1 p.2 rows with
    | .error e => .error e
    | .ok rows2 => foldGroups sq ps rows2

/-- The cumulative effect of the whole group loop on a single row (used to
characterise the successful runs of `foldGroups`). -/
def rowSteps (sq : ℤ → ℚ) (ss : List (String × ℤ)) (r : ContRow) : ContRow :=
  ss.foldl (fun r2 p => stepRow sq p.1 p.2 r2) r

/-- Models `process_continuous_variables_mean(df, sample_size)` (`utils.py`).
`sq` models `np.sqrt` on the (integer) sample sizes; `sample_size` is the
Python dict as an association list in key-insertion order (keys unique). -/
def process_continuous_variables_mean (sq : ℤ → ℚ) (df : List WideRow)
    (sample_size : List (String × ℤ)) : Except String (List ContRow) :=
  if df.isEmpty then .ok []
  else if sample_size.isEmpty then .error "sample_size must not be empty"
  else if sample_size.any (fun p => decide (p.2 ≤ 0)) then
    .error "All sample sizes must be positive"
  else
    let gids := sample_size.map Prod.fst
    foldGroups sq sample_size ((contRetained df gids).map (initContRow gids))

/-- Models `cont_df.filter(regex="(zscore)").values.flatten()`: row-major
flattening of the z-score columns (one column per group, in group order). -/
def flattenZ (rows : List ContRow) (gids : List String) : List (Option ℚ) :=
  rows.flatMap (fun r => gids.map (fun g => r.zCol g))

/-- A categorical row retained by the rate engine, augmented with its
`population_rate` column. -/
structure CatRow where
  row : WideRow
  population_rate : ℚ

/-- The rows retained by the categorical engine: `Variable type ==
"Categorical"` and every group count present (`notna().all(axis=1)` over
the count columns). -/
def catRetained (df : List WideRow) (gids : List String) : List WideRow :=
  (df.filter (fun r => r.VariableType == "Categorical")).filter
    (fun r => gids.all (fun g => (r.count g).isSome))

/-- Models `population_rate = cat_df[count_cols].sum(axis=1) / total_sample_size`. -/
def catRate (gids : List String) (total_sample_size : ℤ) (r : WideRow) : CatRow :=
  { row := r,
    population_rate :=
      (((gids.filterMap r.count).sum : ℤ) : ℚ) / (total_sample_size : ℚ) }

/-- Models `process_categorical_variables(df, total_sample_size)` (`utils.py`).
Note the source returns an empty/None DataFrame unchanged *before* the
`total_sample_size` check. -/
def process_categorical_variables (df : List WideRow) (gids : List String)
    (total_sample_size : ℤ) : Except String (List CatRow) :=
  if df.isEmpty then .ok []
  else if total_sample_size ≤ 0 then
    .error "total_sample_size must be positive"
  else
    .ok ((catRetained df gids).map (catRate gids total_sample_size))

/-- Models `contingency_table_binary(group_count, group_total)` (`utils.py`):
one `[success, total - success]` row per group of `group_count`, in key
order; raises on `success > total`; a key absent from `group_total` is a
Python `KeyError`, also modelled as an error. -/
def contingency_table_binary (group_count group_total : List (String × ℤ)) :
    Except String (List (ℤ × ℤ)) :=
  match group_count with
  | [] => .ok []
  | (g, success) :: rest =>
    match List.lookup g group_total with
    | none => .error ("KeyError: " ++ g)
    | some total =>
      if success > total then
        .error ("Invalid data for group " ++ g ++
          ": success count exceeds total count")
      else
        match contingency_table_binary rest group_total with
        | .error e => .error e
        | .ok tbl => .ok ((success, total - success) :: tbl)

/-- The `method` argument of `scipy.stats.fisher_exact`: `None` (the
closed-form exact test for 2x2 tables) or `MonteCarloMethod(rng=
np.random.default_rng(random_seed))`. -/
inductive FisherMethod where
  | exact : FisherMethod
  | monteCarlo (seed : Option ℕ) : FisherMethod

/-- The method selection of `run_test_pipeline` (pipeline.py lines
117-125): Monte Carlo, seeded by `random_seed`, iff more than two groups. -/
def chooseFisherMethod (gids : List String) (random_seed : Option ℕ) :
    FisherMethod :=
  if gids.length > 2 then .monteCarlo random_seed else .exact

/-- One test-result record of the pipeline output bundle.  The three
shapes match the three kinds of dict values `run_test_pipeline` stores. -/
inductive TestRecord where
  | contChi (p_value test_statistic : ℚ) (zscores : List (Option ℚ))
  | fisher (p_value test_statistic : ℚ) (contingency_table : List (ℤ × ℤ))
      (variable_name : String) (test_statistic_is_odds_ratio : Bool)
  | combined (p_value test_statistic : ℚ)

/-- The continuous-variable stage of `run_test_pipeline`: returns the
p-values appended and the output-bundle entries added. -/
def contPart (sq : ℤ → ℚ) (F : ℕ → ℚ → ℚ) (df : List WideRow)
    (sample_size : List (String × ℤ)) (gids : List String)
    (skip_continuous_var : Bool) :
    Except String (List ℚ × List (String × TestRecord)) :=
  if skip_continuous_var then .ok ([], [])
  else
    match process_continuous_variables_mean sq df sample_size with
    | .error e => .error e
    | .ok cont =>
      let zscores := flattenZ cont gids
      if 0 < cont.length ∧ 0 < zscores.length then
        match chi_square_variance_test F zscores with
        | .error e => .error e
        | .ok pt =>
          .ok ([pt.1],
            [("cont_chi_squared_variance", TestRecord.contChi pt.1 pt.2 zscores)])
      else .ok ([], [])

/-- The dict key `f"fisher_test-{row.name}"`. -/
def fisherRecordKey (i : ℕ) : String := "fisher_test-" ++ toString i

/-- The body of the categorical loop for one retained row: build the
contingency table (which may raise), run `fisher_exact` (returning
`(test_stat, p_value)`), and form the bundle entry.  The flag
`test_statistic_is_odds_ratio` is `len(group_ids) == 2`.  Every retained
row has all group counts present, so `getD 0` merely discharges the
`Option`. -/
def fisherRowTest (fisherExact : List (ℤ × ℤ) → FisherMethod → ℚ × ℚ)
    (gids : List String) (sample_size : List (String × ℤ))
    (method : FisherMethod) (cr : CatRow) :
    Except String (ℚ × (String × TestRecord)) :=
  let group_counts := gids.map (fun g => (g, (cr.row.count g).getD 0))
  match contingency_table_binary group_counts sample_size with
  | .error e => .error e
  | .ok contingency_table =>
    let st := fisherExact contingency_table method
    .ok (st.2, (fisherRecordKey cr.row.idx,
      TestRecord.fisher st.2 st.1 contingency_table cr.row.Variable
        (gids.length == 2)))

/-- Models `cat_df.iterrows()` with an error-propagating body. -/
def mapExcept (f : α → Except String β) : List α → Except String (List β)
  | [] => .ok []
  | x :: xs =>
    match f x with
    | .error e => .error e
    | .ok y =>
      match mapExcept f xs with
      | .error e => .error e
      | .ok ys => .ok (y :: ys)

/-- The categorical-variable stage of `run_test_pipeline`: returns the
p-values appended and the output-bundle entries added. -/
def catPart (fisherExact : List (ℤ × ℤ) → FisherMethod → ℚ × ℚ)
    (df : List WideRow) (sample_size : List (String × ℤ)) (gids : List String)
    (total_sample_size : ℤ) (skip_categorical_var : Bool)
    (random_seed : Option ℕ) :
    Except String (List ℚ × List (String × TestRecord)) :=
  if skip_categorical_var then .ok ([], [])
  else
    match process_categorical_variables df gids total_sample_size with
    | .error e => .error e
    | .ok cat =>
      if cat.length = 0 then .ok ([], [])
      else
        let method := chooseFisherMethod gids random_seed
        match mapExcept (fisherRowTest fisherExact gids sample_size method) cat with
        | .error e => .error e
        | .ok recs => .ok (recs.map Prod.fst, recs.map Prod.snd)

/-- Models `run_test_pipeline(json_data, skip_continuous_var,
skip_categorical_var, random_seed)` (`pipeline.py`).  External scipy/numpy
functions are parameters: `sq` = `np.sqrt` on sample sizes, `F` =
`chi2.cdf`, `fisherExact` = `fisher_exact` returning
`(test_stat, p_value)`, `combine_pvalues` returning
`(statistic, combined_p)`. -/
def run_test_pipeline (sq : ℤ → ℚ) (F : ℕ → ℚ → ℚ)
    (fisherExact : List (ℤ × ℤ) → FisherMethod → ℚ × ℚ)
    (combine_pvalues : List ℚ → ℚ × ℚ) (json : JsonData)
    (skip_continuous_var skip_categorical_var : Bool)
    (random_seed : Option ℕ) : Except String (List (String × TestRecord)) :=
  let df := to_csv_wide json
  let sample_size := json.groups.map (fun g => (g.group_id, g.sample_size))
  let total_sample_size := (sample_size.map Prod.snd).sum
  let gids := sample_size.map Prod.fst
  if total_sample_size = 0 then
    .error "Total sample size is zero. Cannot proceed with analysis."
  else
    match contPart sq F df sample_size gids skip_continuous_var with
    | .error e => .error e
    | .ok pc =>
      match catPart fisherExact df sample_size gids total_sample_size
          skip_categorical_var random_seed with
      | .error e => .error e
      | .ok cc =>
        let pvals := pc.1 ++ cc.1
        let out := pc.2 ++ cc.2
        if pvals.length = 0 then
          .error "No p-values collected. Cannot perform combined test."
        else if ¬ pvals.all (fun p => decide (0 ≤ p) && decide (p ≤ 1)) then
          .error "P-values must be between 0 and 1"
        else
          let ts := combine_pvalues pvals
          .ok (out ++ [("fisher_method-combined", TestRecord.combined ts.2 ts.1)])

/-- The `sd` value the engine effectively uses for a group on a row: the
reported sd when present, otherwise the value imputed from the CI bounds
(stated on the source `WideRow`, before any processing). -/
def effSd (sq : ℤ → ℚ) (n : ℤ) (g : String) (r : WideRow) : Option ℚ :=
  if (r.sd g).isNone then
    omap2 (fun u l => (u - l) / (2 * (196 / 100)) * sq n)
      (r.CI95_upper g) (r.CI95_lower g)
  else r.sd g

/-- The standard error of the mean the engine computes for a group on a
row: the effective sd divided by `sqrt(sample_size[group])`. -/
def effSem (sq : ℤ → ℚ) (n : ℤ) (g : String) (r : WideRow) : Option ℚ :=
  (effSd sq n g r).map (fun sd => sd / sq n)

/-- A wide record with every cell missing (base for concrete examples). -/
def blankRow : WideRow :=
  { idx := 0, Variable := "", VariableType := "",
    original := fun _ => none, mean := fun _ => none, median := fun _ => none,
    count := fun _ => none, IQR_lower := fun _ => none,
    IQR_upper := fun _ => none, CI95_lower := fun _ => none,
    CI95_upper := fun _ => none, sd := fun _ => none, pvalue := fun _ => none }

/-- Concrete categorical row with both group counts present. -/
def rowCat1 : WideRow :=
  { blankRow with
    idx := 0
    Variable := "sex (m)"
    VariableType := "Categorical"
    count := fun g => if g = "a" then some 3 else if g = "b" then some 4 else none }

/-- Concrete categorical row with the count of group "b" missing. -/
def rowCat2 : WideRow :=
  { blankRow with
    idx := 1
    Variable := "smoker (y)"
    VariableType := "Categorical"
    count := fun g => if g = "a" then some 2 else none }

/-- Concrete continuous row: group "a" has its sd missing but a full 95%
CI, group "b" has an explicit sd. -/
def rowCont3 : WideRow :=
  { blankRow with
    idx := 0
    Variable := "age"
    VariableType := "Continuous"
    mean := fun g => if g = "a" then some 1 else if g = "b" then some 3 else none
    sd := fun g => if g = "b" then some 1 else none
    CI95_lower := fun g => if g = "a" then some 0 else none
    CI95_upper := fun g => if g = "a" then some (98 / 25) else none }

/-- Concrete continuous row with both the sd and the CI bounds of group
"a" missing. -/
def rowContErr : WideRow :=
  { blankRow with
    idx := 0
    Variable := "age"
    VariableType := "Continuous"
    mean := fun g => if g = "a" then some 1 else none }

/-- Concrete continuous row whose reported sd for group "a" is zero. -/
def rowSem0 : WideRow :=
  { blankRow with
    idx := 0
    Variable := "age"
    VariableType := "Continuous"
    mean := fun g => if g = "a" then some 1 else none
    sd := fun g => if g = "a" then some 0 else none }

/-- Stub for `np.sqrt` in concrete runs: all witness sample sizes are 1,
whose square root is 1. -/
def sqW : ℤ → ℚ := fun _ => 1

/-- Stub chi-squared CDF for concrete runs. -/
def Fw : ℕ → ℚ → ℚ := fun _ _ => 1 / 2

/-- Stub `fisher_exact` for concrete runs: statistic 1, p-value 1/2. -/
def feW : List (ℤ × ℤ) → FisherMethod → ℚ × ℚ := fun _ _ => (1, 1 / 2)

/-- Stub `combine_pvalues` for concrete runs: statistic 3, p-value 1/4. -/
def cpW : List ℚ → ℚ × ℚ := fun _ => (3, 1 / 4)

/-- A value entry carrying only a mean, an sd and a count. -/
def mkEntry (g : String) (mean sd : Option ℚ) (count : Option ℤ) : ValueEntry :=
  { group_id := g, original := "", mean := mean, median := none,
    count := count, IQR_lower := none, IQR_upper := none, CI95_lower := none,
    CI95_upper := none, sd := sd, pvalue := none }

/-- Concrete extraction bundle: two groups of size 1, one complete
continuous row and one complete categorical row. -/
def jdW : JsonData :=
  { groups := [⟨"a", "A", 1⟩, ⟨"b", "B", 1⟩],
    rows := [⟨"age", "Continuous", none,
               [mkEntry "a" (some 1) (some 1) none,
                mkEntry "b" (some 3) (some 1) none]⟩,
             ⟨"sex", "Categorical", some "m",
               [mkEntry "a" none none (some 1),
                mkEntry "b" none none (some 1)]⟩] }

/-- The pipeline output bundle on `jdW` (with the stub externals). -/
def bundleW : List (String × TestRecord) :=
  [("cont_chi_squared_variance", TestRecord.contChi 1 2 [some (-1), some 1]),
   ("fisher_test-1", TestRecord.fisher (1 / 2) 1 [(1, 0), (1, 0)] "sex (m)" true),
   ("fisher_method-combined", TestRecord.combined (1 / 4) 3)]

/-- Concrete continuous JSON row missing the mean of group "b" (but with
both sds): its z-score for "b" is `NaN`. -/
def rowNaNJson : JsonRow :=
  ⟨"age", "Continuous", none,
    [mkEntry "a" (some 1) (some 1) none, mkEntry "b" none (some 1) none]⟩

/-- The wide record projected from `rowNaNJson` at index 0. -/
def rowNaNW : WideRow := mkWideRow 0 rowNaNJson

/-- Concrete extraction bundle whose continuous row is missing the mean of
group "b". -/
def jdNaN : JsonData :=
  { groups := [⟨"a", "A", 1⟩, ⟨"b", "B", 1⟩], rows := [rowNaNJson] }

lemma reduceOption_map_some (zs : List ℚ) : (zs.map some).reduceOption = zs := by
  induction zs with
  | nil => rfl
  | cons z zs ih => simp [ih]

/-- Evaluation of `chi_square_variance_test` on a NaN-free input of length
at least 2 with positive `sigma0`: all guards pass and the source formulas
are returned. -/
lemma chi_eval (F : ℕ → ℚ → ℚ) (zs : List ℚ) (sigma0 : ℚ)
    (hn : 2 ≤ zs.length) (hs : 0 < sigma0) :
    chi_square_variance_test F (zs.map some) sigma0 =
      .ok (2 * min (F (zs.length - 1)
              (((zs.length - 1 : ℕ) : ℚ) * sampleVar zs / sigma0 ^ 2))
            (1 - F (zs.length - 1)
              (((zs.length - 1 : ℕ) : ℚ) * sampleVar zs / sigma0 ^ 2)),
          ((zs.length - 1 : ℕ) : ℚ) * sampleVar zs / sigma0 ^ 2) := by
  have h1 : ¬ ((zs.map some).length = 0) := by
    simp only [List.length_map]; omega
  have h2 : ¬ ((zs.map some).length < 2) := by
    simp only [List.length_map]; omega
  have h3 : ¬ (((zs.map some).any fun z => z.isNone) = true) := by
    simp [List.any_map, Function.comp]
  have h4 : ¬ (sigma0 ≤ 0) := not_le.mpr hs
  unfold chi_square_variance_test
  rw [if_neg h1, if_neg h2, if_neg h3, if_neg h4]
  simp only [List.length_map, reduceOption_map_some]

lemma sampleVar_nonneg (xs : List ℚ) (hn : 2 ≤ xs.length) : 0 ≤ sampleVar xs := by
  unfold sampleVar
  apply div_nonneg
  · apply List.sum_nonneg
    intro x hx
    obtain ⟨y, _, rfl⟩ := List.mem_map.mp hx
    positivity
  · have : (2 : ℚ) ≤ (xs.length : ℚ) := by exact_mod_cast hn
    linarith

/-- C2: for every z-score array of n >= 2 finite elements and every
sigma0 > 0, `chi_square_variance_test` returns the test statistic
`(n - 1) * sample_variance(ddof=1) / sigma0^2` and the two-tailed p-value
`2 * min(F(chi2_stat), 1 - F(chi2_stat))`, `F` being the chi-squared CDF
with `n - 1` degrees of freedom (modelled by the parameter `F`). -/
theorem chi_square_variance_test_formula (F : ℕ → ℚ → ℚ) (zs : List ℚ)
    (sigma0 : ℚ) (hn : 2 ≤ zs.length) (hs : 0 < sigma0) :
    chi_square_variance_test F (zs.map some) sigma0 =
      .ok (2 * min (F (zs.length - 1)
              (((zs.length - 1 : ℕ) : ℚ) * sampleVar zs / sigma0 ^ 2))
            (1 - F (zs.length - 1)
              (((zs.length - 1 : ℕ) : ℚ) * sampleVar zs / sigma0 ^ 2)),
          ((zs.length - 1 : ℕ) : ℚ) * sampleVar zs / sigma0 ^ 2) :=
  chi_eval F zs sigma0 hn hs

/-- Witness for C2: on the concrete z-scores `[1, 3]` with `sigma0 = 1`
and the constant-zero CDF stub, the test returns
`p = 2 * min(0, 1 - 0) = 0` and `chi2_stat = 1 * var([1,3]) / 1 = 2`. -/
theorem chi_square_variance_test_formula_witness :
    chi_square_variance_test (fun _ _ => (0 : ℚ)) ([(1 : ℚ), 3].map some) 1 =
      .ok (0, 2) := by
  have h := chi_square_variance_test_formula (fun _ _ => (0 : ℚ)) [(1 : ℚ), 3] 1
    (by norm_num) (by norm_num)
  rw [h]
  norm_num [sampleVar]

/-- C7: for every z-score array with at least 2 finite elements and every
sigma0 > 0, `chi_square_variance_test` succeeds with a non-negative test
statistic and a p-value in [0, 1] (the library CDF `F` takes values in
[0, 1]). -/
theorem chi_square_variance_test_bounds (F : ℕ → ℚ → ℚ) (zs : List ℚ)
    (sigma0 : ℚ) (hF : ∀ d x, 0 ≤ F d x ∧ F d x ≤ 1)
    (hn : 2 ≤ zs.length) (hs : 0 < sigma0) :
    ∃ p t, chi_square_variance_test F (zs.map some) sigma0 = .ok (p, t) ∧
      0 ≤ t ∧ 0 ≤ p ∧ p ≤ 1 := by
  refine ⟨_, _, chi_eval F zs sigma0 hn hs, ?_, ?_, ?_⟩
  · apply div_nonneg
    · exact mul_nonneg (by positivity) (sampleVar_nonneg zs hn)
    · positivity
  · have ha := (hF (zs.length - 1)
      (((zs.length - 1 : ℕ) : ℚ) * sampleVar zs / sigma0 ^ 2)).1
    have hb := (hF (zs.length - 1)
      (((zs.length - 1 : ℕ) : ℚ) * sampleVar zs / sigma0 ^ 2)).2
    have := le_min ha (by linarith :
      (0 : ℚ) ≤ 1 - F (zs.length - 1)
        (((zs.length - 1 : ℕ) : ℚ) * sampleVar zs / sigma0 ^ 2))
    linarith
  · have h1 := min_le_left
      (F (zs.length - 1) (((zs.length - 1 : ℕ) : ℚ) * sampleVar zs / sigma0 ^ 2))
      (1 - F (zs.length - 1) (((zs.length - 1 : ℕ) : ℚ) * sampleVar zs / sigma0 ^ 2))
    have h2 := min_le_right
      (F (zs.length - 1) (((zs.length - 1 : ℕ) : ℚ) * sampleVar zs / sigma0 ^ 2))
      (1 - F (zs.length - 1) (((zs.length - 1 : ℕ) : ℚ) * sampleVar zs / sigma0 ^ 2))
    linarith

/-- Witness for C7: concrete z-scores `[2, 5]`, `sigma0 = 3`, CDF stub
constantly `1/4`. -/
theorem chi_square_variance_test_bounds_witness :
    ∃ p t, chi_square_variance_test (fun _ _ => (1 / 4 : ℚ))
        ([(2 : ℚ), 5].map some) 3 = .ok (p, t) ∧ 0 ≤ t ∧ 0 ≤ p ∧ p ≤ 1 :=
  chi_square_variance_test_bounds (fun _ _ => (1 / 4 : ℚ)) [(2 : ℚ), 5] 3
    (fun _ _ => by norm_num) (by norm_num) (by norm_num)

lemma ctb_cons (g : String) (c : ℤ) (rest gt : List (String × ℤ)) :
    contingency_table_binary ((g, c) :: rest) gt =
      match List.lookup g gt with
      | none => .error ("KeyError: " ++ g)
      | some total =>
        if c > total then
          .error ("Invalid data for group " ++ g ++
            ": success count exceeds total count")
        else
          match contingency_table_binary rest gt with
          | .error e => .error e
          | .ok tbl => .ok ((c, total - c) :: tbl) := rfl

/-- C5: `contingency_table_binary` builds, for group-count and group-total
dictionaries covering the same groups, a k x 2 table whose row for each
group `g`, in input key order, is `[count_g, total_g - count_g]`, and it
errors exactly when some group's success count exceeds its total. -/
theorem contingency_table_binary_spec (gc gt : List (String × ℤ))
    (hkeys : ∀ p ∈ gc, (List.lookup p.1 gt).isSome) :
    ((∃ e, contingency_table_binary gc gt = .error e) ↔
      ∃ p ∈ gc, ∃ t, List.lookup p.1 gt = some t ∧ t < p.2) ∧
    ((∀ p ∈ gc, ∀ t, List.lookup p.1 gt = some t → p.2 ≤ t) →
      contingency_table_binary gc gt =
        .ok (gc.map (fun p => (p.2, (List.lookup p.1 gt).getD 0 - p.2)))) := by
  induction gc with
  | nil =>
    refine ⟨⟨?_, ?_⟩, ?_⟩
    · rintro ⟨e, he⟩
      exact absurd he (by simp [contingency_table_binary])
    · rintro ⟨p, hp, -⟩
      exact absurd hp (List.not_mem_nil p)
    · intro _
      rfl
  | cons q rest ih =>
    obtain ⟨g, c⟩ := q
    obtain ⟨t, ht⟩ := Option.isSome_iff_exists.mp (hkeys (g, c) (List.mem_cons_self _ _))
    obtain ⟨ih1, ih2⟩ := ih (fun p hp => hkeys p (List.mem_cons_of_mem _ hp))
    rw [ctb_cons]
    simp only [ht]
    by_cases hgt : c > t
    · refine ⟨⟨fun _ => ⟨(g, c), List.mem_cons_self _ _, t, ht, hgt⟩, fun _ => ?_⟩, fun hall => ?_⟩
      · exact ⟨_, by rw [if_pos hgt]⟩
      · exact absurd (hall (g, c) (List.mem_cons_self _ _) t ht) (by omega)
    · rw [if_neg hgt]
      cases hr : contingency_table_binary rest gt with
      | error e =>
        refine ⟨⟨fun _ => ?_, fun _ => ⟨e, rfl⟩⟩, fun hall => ?_⟩
        · obtain ⟨p, hp, t2, ht2, hlt⟩ := ih1.mp ⟨e, hr⟩
          exact ⟨p, List.mem_cons_of_mem _ hp, t2, ht2, hlt⟩
        · exact absurd (ih2 (fun p hp => hall p (List.mem_cons_of_mem _ hp)))
            (by rw [hr]; exact fun h => Except.noConfusion h)
      | ok tbl =>
        refine ⟨⟨fun h => absurd h ?_, fun h => ?_⟩, fun hall => ?_⟩
        · rintro ⟨e, he⟩
          exact Except.noConfusion he
        · exfalso
          obtain ⟨p, hp, t2, ht2, hlt⟩ := h
          rcases List.mem_cons.mp hp with heq | hmem
          · subst heq
            rw [ht] at ht2
            injection ht2 with ht2
            omega
          · obtain ⟨e, he⟩ := ih1.mpr ⟨p, hmem, t2, ht2, hlt⟩
            rw [hr] at he
            exact Except.noConfusion he
        · have h2 := ih2 (fun p hp => hall p (List.mem_cons_of_mem _ hp))
          rw [hr] at h2
          injection h2 with h2
          simp only [List.map_cons, ht, h2, Option.getD_some]

/-- Witness for C5: for groups `{A: count=30, total=50}` the built table
row for A is exactly `[30, 20]`, with no error. -/
theorem contingency_table_binary_spec_witness :
    contingency_table_binary [("A", 30)] [("A", 50)] = .ok [(30, 20)] := by
  have h := (contingency_table_binary_spec [("A", 30)] [("A", 50)]
    (by decide)).2 (by decide)
  simpa using h

/-- C8: for positive `total_sample_size`, the categorical rate engine
never errors and returns exactly the input rows of categorical type with
every group count present (rows with any missing count silently dropped),
each augmented with `population_rate = sum(counts) / total_sample_size`. -/
theorem process_categorical_variables_spec (df : List WideRow)
    (gids : List String) (total : ℤ) (ht : 0 < total) :
    process_categorical_variables df gids total =
      .ok ((catRetained df gids).map (catRate gids total)) := by
  unfold process_categorical_variables
  by_cases hdf : df.isEmpty
  · rw [if_pos hdf]
    have hnil : df = [] := by
      cases df with
      | nil => rfl
      | cons a l => exact absurd hdf (by simp [List.isEmpty])
    subst hnil
    rfl
  · rw [if_neg hdf, if_neg (not_le.mpr ht)]

/-- Witness for C8: two categorical rows, one with a count missing for
group "b"; only the complete row survives, with rate `(3 + 4) / 10`. -/
theorem process_categorical_variables_spec_witness :
    process_categorical_variables [rowCat1, rowCat2] ["a", "b"] 10 =
      .ok [{ row := rowCat1, population_rate := 7 / 10 }] := by
  have h := process_categorical_variables_spec [rowCat1, rowCat2] ["a", "b"] 10
    (by norm_num)
  rw [h]
  rfl

/-- Counterexample for C9 as stated: on an empty DataFrame the source
returns it unchanged *before* the `total_sample_size` check, so a
non-positive total does not raise. -/
theorem process_categorical_variables_nonpos_total_cex :
    (-3 : ℤ) ≤ 0 ∧ process_categorical_variables [] ["a"] (-3) = .ok [] :=
  ⟨by norm_num, rfl⟩

/-- C9 (amended): for every *non-empty* DataFrame,
`process_categorical_variables` fails with a data error whenever
`total_sample_size <= 0`. -/
theorem process_categorical_variables_nonpos_total (df : List WideRow)
    (gids : List String) (total : ℤ) (hdf : df ≠ []) (ht : total ≤ 0) :
    process_categorical_variables df gids total =
      .error "total_sample_size must be positive" := by
  unfold process_categorical_variables
  rw [if_neg (by cases df with
    | nil => exact absurd rfl hdf
    | cons a l => simp [List.isEmpty]), if_pos ht]

/-- Witness for C9 (amended): a one-row DataFrame with zero total errors. -/
theorem process_categorical_variables_nonpos_total_witness :
    process_categorical_variables [rowCat1] ["a"] 0 =
      .error "total_sample_size must be positive" :=
  process_categorical_variables_nonpos_total [rowCat1] ["a"] 0
    (List.cons_ne_nil _ _) (by norm_num)

lemma imputeRow_row (sq : ℤ → ℚ) (g : String) (n : ℤ) (r : ContRow) :
    (imputeRow sq g n r).row = r.row := by
  unfold imputeRow; split <;> rfl

lemma imputeRow_pm (sq : ℤ → ℚ) (g : String) (n : ℤ) (r : ContRow) :
    (imputeRow sq g n r).population_mean = r.population_mean := by
  unfold imputeRow; split <;> rfl

lemma imputeRow_zCol (sq : ℤ → ℚ) (g : String) (n : ℤ) (r : ContRow) :
    (imputeRow sq g n r).zCol = r.zCol := by
  unfold imputeRow; split <;> rfl

lemma imputeRow_sdCol_ne (sq : ℤ → ℚ) (g : String) (n : ℤ) (r : ContRow)
    (g2 : String) (h : g2 ≠ g) :
    (imputeRow sq g n r).sdCol g2 = r.sdCol g2 := by
  unfold imputeRow
  split
  · exact if_neg h
  · rfl

lemma imputeRow_sdCol_self (sq : ℤ → ℚ) (g : String) (n : ℤ) (r : ContRow) :
    (imputeRow sq g n r).sdCol g =
      if (r.sdCol g).isNone then imputedSd sq n r g else r.sdCol g := by
  unfold imputeRow
  split
  · exact if_pos rfl
  · rfl

lemma assignSemZ_row (sq : ℤ → ℚ) (g : String) (n : ℤ) (r : ContRow) :
    (assignSemZ sq g n r).row = r.row := rfl

lemma assignSemZ_pm (sq : ℤ → ℚ) (g : String) (n : ℤ) (r : ContRow) :
    (assignSemZ sq g n r).population_mean = r.population_mean := rfl

lemma assignSemZ_sdCol (sq : ℤ → ℚ) (g : String) (n : ℤ) (r : ContRow) :
    (assignSemZ sq g n r).sdCol = r.sdCol := rfl

lemma assignSemZ_zCol_ne (sq : ℤ → ℚ) (g : String) (n : ℤ) (r : ContRow)
    (g2 : String) (h : g2 ≠ g) :
    (assignSemZ sq g n r).zCol g2 = r.zCol g2 := if_neg h

lemma assignSemZ_zCol_self (sq : ℤ → ℚ) (g : String) (n : ℤ) (r : ContRow) :
    (assignSemZ sq g n r).zCol g = zOf sq n r g := if_pos rfl

lemma stepRow_row (sq : ℤ → ℚ) (g : String) (n : ℤ) (r : ContRow) :
    (stepRow sq g n r).row = r.row := by
  unfold stepRow; rw [assignSemZ_row, imputeRow_row]

lemma stepRow_pm (sq : ℤ → ℚ) (g : String) (n : ℤ) (r : ContRow) :
    (stepRow sq g n r).population_mean = r.population_mean := by
  unfold stepRow; rw [assignSemZ_pm, imputeRow_pm]

lemma stepRow_sdCol_ne (sq : ℤ → ℚ) (g : String) (n : ℤ) (r : ContRow)
    (g2 : String) (h : g2 ≠ g) :
    (stepRow sq g n r).sdCol g2 = r.sdCol g2 := by
  unfold stepRow; rw [assignSemZ_sdCol, imputeRow_sdCol_ne sq g n r g2 h]

lemma stepRow_sdCol_self (sq : ℤ → ℚ) (g : String) (n : ℤ) (r : ContRow) :
    (stepRow sq g n r).sdCol g =
      if (r.sdCol g).isNone then imputedSd sq n r g else r.sdCol g := by
  unfold stepRow; rw [assignSemZ_sdCol, imputeRow_sdCol_self]

lemma stepRow_zCol_ne (sq : ℤ → ℚ) (g : String) (n : ℤ) (r : ContRow)
    (g2 : String) (h : g2 ≠ g) :
    (stepRow sq g n r).zCol g2 = r.zCol g2 := by
  unfold stepRow
  rw [assignSemZ_zCol_ne sq g n _ g2 h]
  rw [imputeRow_zCol]

lemma rowSteps_nil (sq : ℤ → ℚ) (r : ContRow) : rowSteps sq [] r = r := rfl

lemma rowSteps_cons (sq : ℤ → ℚ) (p : String × ℤ) (ps : List (String × ℤ))
    (r : ContRow) :
    rowSteps sq (p :: ps) r = rowSteps sq ps (stepRow sq p.1 p.2 r) := rfl

lemma rowSteps_row (sq : ℤ → ℚ) (ss : List (String × ℤ)) (r : ContRow) :
    (rowSteps sq ss r).row = r.row := by
  induction ss generalizing r with
  | nil => rfl
  | cons p ps ih => rw [rowSteps_cons, ih, stepRow_row]

lemma rowSteps_pm (sq : ℤ → ℚ) (ss : List (String × ℤ)) (r : ContRow) :
    (rowSteps sq ss r).population_mean = r.population_mean := by
  induction ss generalizing r with
  | nil => rfl
  | cons p ps ih => rw [rowSteps_cons, ih, stepRow_pm]

lemma rowSteps_sdCol_not_mem (sq : ℤ → ℚ) (ss : List (String × ℤ))
    (r : ContRow) (g : String) (h : g ∉ ss.map Prod.fst) :
    (rowSteps sq ss r).sdCol g = r.sdCol g := by
  induction ss generalizing r with
  | nil => rfl
  | cons p ps ih =>
    rw [rowSteps_cons]
    have hg : g ≠ p.1 := by
      intro hgp
      exact h (by rw [hgp]; exact List.mem_cons_self _ _)
    rw [ih _ (fun hm => h (List.mem_cons_of_mem _ hm)),
      stepRow_sdCol_ne sq p.1 p.2 r g hg]

/-- A z-score column entry stays `NaN` through the whole group loop when
the corresponding mean cell is missing: once assigned it is
`(NaN - population_mean) / sem = NaN`, and other groups' iterations do not
touch it. -/
lemma rowSteps_zCol_none (sq : ℤ → ℚ) (ss : List (String × ℤ))
    (r : ContRow) (g : String) (hm : r.row.mean g = none)
    (hz : r.zCol g = none) :
    (rowSteps sq ss r).zCol g = none := by
  induction ss generalizing r with
  | nil => exact hz
  | cons p ps ih =>
    rw [rowSteps_cons]
    refine ih _ ?_ ?_
    · rw [stepRow_row]; exact hm
    · by_cases hg : g = p.1
      · subst hg
        unfold stepRow
        rw [assignSemZ_zCol_self]
        unfold zOf
        rw [imputeRow_row, hm]
      · rw [stepRow_zCol_ne sq p.1 p.2 r g hg]; exact hz

/-- The sd column of a group with missing sd and complete CI bounds, after
the whole group loop: exactly the imputed value from the claim formula. -/
lemma rowSteps_sdCol_imputed (sq : ℤ → ℚ) (ss : List (String × ℤ))
    (r : ContRow) (g : String) (n : ℤ) (l u : ℚ)
    (hmem : (g, n) ∈ ss) (hnd : (ss.map Prod.fst).Nodup)
    (hsd : r.sdCol g = none) (hl : r.row.CI95_lower g = some l)
    (hu : r.row.CI95_upper g = some u) :
    (rowSteps sq ss r).sdCol g = some ((u - l) / (2 * (196 / 100)) * sq n) := by
  induction ss generalizing r with
  | nil => exact absurd hmem (List.not_mem_nil _)
  | cons p ps ih =>
    rw [rowSteps_cons]
    have hnd2 : p.1 ∉ ps.map Prod.fst ∧ (ps.map Prod.fst).Nodup :=
      List.nodup_cons.mp (by rw [List.map_cons] at hnd; exact hnd)
    rcases List.mem_cons.mp hmem with heq | hmem2
    · have hp1 : p.1 = g := by rw [← heq]
      have hp2 : p.2 = n := by rw [← heq]
      have hnotin : g ∉ ps.map Prod.fst := by
        rw [← hp1]; exact hnd2.1
      rw [rowSteps_sdCol_not_mem sq ps _ g hnotin, hp1, hp2,
        stepRow_sdCol_self, if_pos (by rw [hsd]; rfl)]
      unfold imputedSd
      rw [hu, hl]
      rfl
    · have hg : g ≠ p.1 := by
        intro hgp
        exact hnd2.1 (by rw [← hgp]; exact List.mem_map.mpr ⟨(g, n), hmem2, rfl⟩)
      refine ih _ hmem2 hnd2.2 ?_ ?_ ?_
      · rw [stepRow_sdCol_ne sq p.1 p.2 r g hg]; exact hsd
      · rw [stepRow_row]; exact hl
      · rw [stepRow_row]; exact hu

/-- A successful group iteration acts elementwise as `stepRow`. -/
lemma processGroup_ok_map (sq : ℤ → ℚ) (g : String) (n : ℤ)
    (rows out : List ContRow) (h : processGroup sq g n rows = .ok out) :
    out = rows.map (stepRow sq g n) := by
  unfold processGroup at h
  split at h
  · exact absurd h (fun h2 => Except.noConfusion h2)
  · split at h
    · exact absurd h (fun h2 => Except.noConfusion h2)
    · injection h with h
      rw [← h, List.map_map]
      rfl

/-- A successful group loop acts elementwise as `rowSteps`. -/
lemma foldGroups_ok_map (sq : ℤ → ℚ) :
    ∀ (ss : List (String × ℤ)) (rows out : List ContRow),
      foldGroups sq ss rows = .ok out → out = rows.map (rowSteps sq ss)
  | [], rows, out, h => by
    injection h with h
    rw [← h]
    exact ((List.map_congr_left (fun r _ => rowSteps_nil sq r)).trans
      (List.map_id' rows)).symm
  | p :: ps, rows, out, h => by
    unfold foldGroups at h
    cases hpg : processGroup sq p.1 p.2 rows with
    | error e => rw [hpg] at h; exact absurd h (fun h2 => Except.noConfusion h2)
    | ok rows2 =>
      rw [hpg] at h
      have h2 := foldGroups_ok_map sq ps rows2 out h
      rw [h2, processGroup_ok_map sq p.1 p.2 rows rows2 hpg, List.map_map]
      apply List.map_congr_left
      intro r _
      rw [Function.comp_apply, rowSteps_cons]

/-- If a condition on (base row, current sd cell of group `g`) forces the
`g`-iteration to error, and some row of the current state satisfies it,
then the whole remaining group loop errors. -/
lemma foldGroups_err (sq : ℤ → ℚ) (g : String) (n : ℤ)
    (Q : WideRow → Option ℚ → Prop)
    (hQ : ∀ rows : List ContRow, (∃ r ∈ rows, Q r.row (r.sdCol g)) →
      ∃ e, processGroup sq g n rows = .error e) :
    ∀ (ss : List (String × ℤ)) (rows : List ContRow), (g, n) ∈ ss →
      (ss.map Prod.fst).Nodup → (∃ r ∈ rows, Q r.row (r.sdCol g)) →
      ∃ e, foldGroups sq ss rows = .error e
  | [], rows, hmem, _, _ => absurd hmem (List.not_mem_nil _)
  | p :: ps, rows, hmem, hnd, hcond => by
    have hnd2 : p.1 ∉ ps.map Prod.fst ∧ (ps.map Prod.fst).Nodup :=
      List.nodup_cons.mp (by rw [List.map_cons] at hnd; exact hnd)
    cases hpg : processGroup sq p.1 p.2 rows with
    | error e => exact ⟨e, by unfold foldGroups; rw [hpg]⟩
    | ok rows2 =>
      rcases List.mem_cons.mp hmem with heq | hmem2
      · exfalso
        obtain ⟨e, he⟩ := hQ rows hcond
        rw [← heq] at hpg
        rw [hpg] at he
        exact Except.noConfusion he
      · have hg : g ≠ p.1 := by
          intro hgp
          exact hnd2.1 (by rw [← hgp]; exact List.mem_map.mpr ⟨(g, n), hmem2, rfl⟩)
        have hcond2 : ∃ r ∈ rows2, Q r.row (r.sdCol g) := by
          obtain ⟨r, hr, hQr⟩ := hcond
          refine ⟨stepRow sq p.1 p.2 r, ?_, ?_⟩
          · rw [processGroup_ok_map sq p.1 p.2 rows rows2 hpg]
            exact List.mem_map.mpr ⟨r, hr, rfl⟩
          · rw [stepRow_row, stepRow_sdCol_ne sq p.1 p.2 r g hg]
            exact hQr
        obtain ⟨e, he⟩ := foldGroups_err sq g n Q hQ ps rows2 hmem2 hnd2.2 hcond2
        exact ⟨e, by unfold foldGroups; rw [hpg]; exact he⟩

/-- Characterisation of a successful run of the continuous engine: the
output is the retained rows, initialised and passed through the whole
group loop. -/
lemma process_cont_ok_char (sq : ℤ → ℚ) (df : List WideRow)
    (ss : List (String × ℤ)) (out : List ContRow)
    (h : process_continuous_variables_mean sq df ss = .ok out) :
    out = ((contRetained df (ss.map Prod.fst)).map
        (initContRow (ss.map Prod.fst))).map (rowSteps sq ss) := by
  unfold process_continuous_variables_mean at h
  split at h
  · next hdf =>
    injection h with h
    have hnil : df = [] := by
      cases df with
      | nil => rfl
      | cons a l => exact absurd hdf (by simp [List.isEmpty])
    subst hnil
    rw [← h]
    rfl
  · split at h
    · exact absurd h (fun h2 => Except.noConfusion h2)
    · split at h
      · exact absurd h (fun h2 => Except.noConfusion h2)
      · exact foldGroups_ok_map sq ss _ out h

/-- An error-forcing condition on some retained row (stated on the source
data) makes the whole continuous engine error, provided `(g, n)` is one of
the groups. -/
lemma process_cont_err (sq : ℤ → ℚ) (df : List WideRow)
    (ss : List (String × ℤ)) (g : String) (n : ℤ)
    (Q : WideRow → Option ℚ → Prop)
    (hQ : ∀ rows : List ContRow, (∃ r ∈ rows, Q r.row (r.sdCol g)) →
      ∃ e, processGroup sq g n rows = .error e)
    (hmem : (g, n) ∈ ss) (hnd : (ss.map Prod.fst).Nodup)
    (hcond : ∃ r ∈ contRetained df (ss.map Prod.fst), Q r (r.sd g)) :
    ∃ e, process_continuous_variables_mean sq df ss = .error e := by
  unfold process_continuous_variables_mean
  split
  · next hdf =>
    exfalso
    have hnil : df = [] := by
      cases df with
      | nil => rfl
      | cons a l => exact absurd hdf (by simp [List.isEmpty])
    subst hnil
    obtain ⟨r, hr, -⟩ := hcond
    exact absurd hr (by simp [contRetained])
  · split
    · exact ⟨_, rfl⟩
    · split
      · exact ⟨_, rfl⟩
      · refine foldGroups_err sq g n Q hQ ss _ hmem hnd ?_
        obtain ⟨r, hr, hQr⟩ := hcond
        exact ⟨initContRow (ss.map Prod.fst) r,
          List.mem_map.mpr ⟨r, hr, rfl⟩, hQr⟩

/-- C3: in the continuous z-score engine, a retained row with a group's sd
missing but both 95%-CI bounds present gets the sd imputed as
`(ci_upper - ci_lower) / (2 * 1.96) * sqrt(sample_size[group])`; a
retained row with both the sd and a CI bound missing for that group makes
the engine fail with a data error. -/
theorem process_continuous_sd_imputation (sq : ℤ → ℚ) (df : List WideRow)
    (ss : List (String × ℤ)) (g : String) (n : ℤ)
    (hmem : (g, n) ∈ ss) (hnd : (ss.map Prod.fst).Nodup) :
    ((∃ r ∈ contRetained df (ss.map Prod.fst), r.sd g = none ∧
        (r.CI95_lower g = none ∨ r.CI95_upper g = none)) →
      ∃ e, process_continuous_variables_mean sq df ss = .error e) ∧
    (∀ out, process_continuous_variables_mean sq df ss = .ok out →
      ∀ (i : ℕ) (r0 : WideRow) (l u : ℚ),
        (contRetained df (ss.map Prod.fst))[i]? = some r0 →
        r0.sd g = none → r0.CI95_lower g = some l → r0.CI95_upper g = some u →
        ∃ cr : ContRow, out[i]? = some cr ∧
          cr.sdCol g = some ((u - l) / (2 * (196 / 100)) * sq n)) := by
  constructor
  · intro hcond
    refine process_cont_err sq df ss g n
      (fun w sdOpt => sdOpt = none ∧ (w.CI95_lower g = none ∨ w.CI95_upper g = none))
      ?_ hmem hnd hcond
    rintro rows ⟨r, hr, hsd, hci⟩
    have hany : (rows.any fun r2 => (r2.sdCol g).isNone &&
        ((r2.row.CI95_lower g).isNone || (r2.row.CI95_upper g).isNone)) = true :=
      List.any_eq_true.mpr ⟨r, hr, by rcases hci with h | h <;> simp [hsd, h]⟩
    exact ⟨_, by unfold processGroup; rw [if_pos hany]⟩
  · intro out hok i r0 l u hr hsd hl hu
    have hchar := process_cont_ok_char sq df ss out hok
    refine ⟨rowSteps sq ss (initContRow (ss.map Prod.fst) r0), ?_, ?_⟩
    · rw [hchar, List.getElem?_map, List.getElem?_map, hr]
      rfl
    · exact rowSteps_sdCol_imputed sq ss _ g n l u hmem hnd hsd hl hu

/-- Witness for C3: `rowContErr` (sd and CI both missing for "a") makes
the engine error; `rowCont3` (sd of "a" missing, CI `[0, 98/25]` present,
sample size 1) gets `sd = (98/25 - 0) / (2 * 1.96) * sqrt(1)` imputed. -/
theorem process_continuous_sd_imputation_witness :
    (∃ e, process_continuous_variables_mean sqW [rowContErr] [("a", 1)] =
      .error e) ∧
    (∃ cr,
      (((contRetained [rowCont3] ["a", "b"]).map (initContRow ["a", "b"])).map
        (rowSteps sqW [("a", 1), ("b", 1)]))[0]? = some cr ∧
      cr.sdCol "a" = some ((98 / 25 - 0) / (2 * (196 / 100)) * sqW 1)) := by
  constructor
  · exact (process_continuous_sd_imputation sqW [rowContErr] [("a", 1)] "a" 1
      (by simp) (by simp)).1
      ⟨rowContErr, List.mem_singleton.mpr rfl, rfl, Or.inl rfl⟩
  · have hok : process_continuous_variables_mean sqW [rowCont3]
        [("a", 1), ("b", 1)] =
        .ok (((contRetained [rowCont3] ["a", "b"]).map
          (initContRow ["a", "b"])).map
            (rowSteps sqW [("a", 1), ("b", 1)])) := by with_unfolding_all rfl
    exact (process_continuous_sd_imputation sqW [rowCont3]
      [("a", 1), ("b", 1)] "a" 1 (by simp) (by simp)).2 _ hok 0 rowCont3 0
      (98 / 25) rfl rfl rfl rfl

/-- C6: if the standard error of the mean computed for some group on some
retained row (its effective sd, imputed if need be, divided by the square
root of the group's sample size) is zero, the continuous engine fails with
a data error and produces no z-scores. -/
theorem process_continuous_zero_sem (sq : ℤ → ℚ) (df : List WideRow)
    (ss : List (String × ℤ)) (g : String) (n : ℤ)
    (hmem : (g, n) ∈ ss) (hnd : (ss.map Prod.fst).Nodup)
    (hsem : ∃ r ∈ contRetained df (ss.map Prod.fst),
      effSem sq n g r = some 0) :
    ∃ e, process_continuous_variables_mean sq df ss = .error e := by
  refine process_cont_err sq df ss g n
    (fun w sdOpt => Option.map (fun sd => sd / sq n)
      (if sdOpt.isNone then
        omap2 (fun u2 l2 => (u2 - l2) / (2 * (196 / 100)) * sq n)
          (w.CI95_upper g) (w.CI95_lower g)
      else sdOpt) = some 0)
    ?_ hmem hnd ?_
  · rintro rows ⟨r, hr, hQr⟩
    unfold processGroup
    by_cases hg1 : (rows.any fun r2 => (r2.sdCol g).isNone &&
        ((r2.row.CI95_lower g).isNone || (r2.row.CI95_upper g).isNone)) = true
    · rw [if_pos hg1]
      exact ⟨_, rfl⟩
    · rw [if_neg hg1]
      have hsem0 : semOf sq n (imputeRow sq g n r) g = some 0 := by
        unfold semOf
        rw [imputeRow_sdCol_self]
        exact hQr
      rw [if_pos (List.any_eq_true.mpr
        ⟨imputeRow sq g n r, List.mem_map.mpr ⟨r, hr, rfl⟩,
          decide_eq_true hsem0⟩)]
      exact ⟨_, rfl⟩
  · obtain ⟨r, hr, h⟩ := hsem
    exact ⟨r, hr, h⟩

/-- Witness for C6: `rowSem0` reports `sd = 0` for group "a" (sample size
1), so `sem = 0 / 1 = 0` and the engine errors. -/
theorem process_continuous_zero_sem_witness :
    ∃ e, process_continuous_variables_mean sqW [rowSem0] [("a", 1)] =
      .error e :=
  process_continuous_zero_sem sqW [rowSem0] [("a", 1)] "a" 1 (by simp)
    (by simp) ⟨rowSem0, List.mem_singleton.mpr rfl,
      by simp [effSem, effSd, rowSem0, sqW]⟩

/-- Any z-score list containing a `NaN` makes `chi_square_variance_test`
error (via the length guard or the NaN guard). -/
lemma chi_nan_error (F : ℕ → ℚ → ℚ) (zs : List (Option ℚ)) (s : ℚ)
    (h : zs.any Option.isNone = true) :
    ∃ e, chi_square_variance_test F zs s = .error e := by
  unfold chi_square_variance_test
  split_ifs
  any_goals exact ⟨_, rfl⟩

lemma mapExcept_ok_mem (f : α → Except String β) :
    ∀ (xs : List α) (ys : List β), mapExcept f xs = .ok ys →
      ∀ y ∈ ys, ∃ x ∈ xs, f x = .ok y
  | [], ys, h, y, hy => by
    injection h with h
    rw [← h] at hy
    exact absurd hy (List.not_mem_nil y)
  | x :: xs, ys, h, y, hy => by
    unfold mapExcept at h
    cases hf : f x with
    | error e => rw [hf] at h; exact absurd h (fun h2 => Except.noConfusion h2)
    | ok y0 =>
      rw [hf] at h
      cases hm : mapExcept f xs with
      | error e => rw [hm] at h; exact absurd h (fun h2 => Except.noConfusion h2)
      | ok ys0 =>
        rw [hm] at h
        injection h with h
        rw [← h] at hy
        rcases List.mem_cons.mp hy with heq | hmem
        · exact ⟨x, List.mem_cons_self _ _, by rw [hf, heq]⟩
        · obtain ⟨x2, hx2, hfx2⟩ := mapExcept_ok_mem f xs ys0 hm y hmem
          exact ⟨x2, List.mem_cons_of_mem _ hx2, hfx2⟩

/-- A successful `fisherRowTest` always tags the record with
`test_statistic_is_odds_ratio = (len(group_ids) == 2)`. -/
lemma fisherRowTest_ok_shape (fe : List (ℤ × ℤ) → FisherMethod → ℚ × ℚ)
    (gids : List String) (ss : List (String × ℤ)) (m : FisherMethod)
    (cr : CatRow) (y : ℚ × (String × TestRecord))
    (h : fisherRowTest fe gids ss m cr = .ok y) :
    ∃ p t tab, y = (p, (fisherRecordKey cr.row.idx,
      TestRecord.fisher p t tab cr.row.Variable (gids.length == 2))) := by
  simp only [fisherRowTest] at h
  cases hc : contingency_table_binary
      (gids.map (fun g => (g, (cr.row.count g).getD 0))) ss with
  | error e =>
    simp only [hc] at h
    exact absurd h (fun h2 => Except.noConfusion h2)
  | ok tab =>
    simp only [hc] at h
    injection h with h
    exact ⟨_, _, tab, h.symm⟩

/-- The continuous stage only ever emits the chi-squared record. -/
lemma contPart_ok_mem (sq : ℤ → ℚ) (F : ℕ → ℚ → ℚ) (df : List WideRow)
    (ss : List (String × ℤ)) (gids : List String) (skipC : Bool)
    (pc : List ℚ × List (String × TestRecord))
    (h : contPart sq F df ss gids skipC = .ok pc) :
    ∀ x ∈ pc.2, ∃ a b zs,
      x = ("cont_chi_squared_variance", TestRecord.contChi a b zs) := by
  simp only [contPart] at h
  split at h
  · injection h with h
    rw [← h]
    rintro x hx
    exact absurd hx (List.not_mem_nil x)
  · split at h
    · exact absurd h (fun h2 => Except.noConfusion h2)
    · split at h
      · split at h
        · exact absurd h (fun h2 => Except.noConfusion h2)
        · injection h with h
          rw [← h]
          rintro x hx
          rcases List.mem_singleton.mp hx with rfl
          exact ⟨_, _, _, rfl⟩
      · injection h with h
        rw [← h]
        rintro x hx
        exact absurd hx (List.not_mem_nil x)

/-- Every Fisher record the categorical stage emits carries the flag
`len(group_ids) == 2`. -/
lemma catPart_ok_flag (fe : List (ℤ × ℤ) → FisherMethod → ℚ × ℚ)
    (df : List WideRow) (ss : List (String × ℤ)) (gids : List String)
    (total : ℤ) (skipK : Bool) (seed : Option ℕ)
    (cc : List ℚ × List (String × TestRecord))
    (h : catPart fe df ss gids total skipK seed = .ok cc) :
    ∀ key p t tab v flag,
      (key, TestRecord.fisher p t tab v flag) ∈ cc.2 →
      flag = (gids.length == 2) := by
  simp only [catPart] at h
  split at h
  · injection h with h
    rw [← h]
    intro key p t tab v flag hx
    exact absurd hx (List.not_mem_nil _)
  · split at h
    · exact absurd h (fun h2 => Except.noConfusion h2)
    · split at h
      · injection h with h
        rw [← h]
        intro key p t tab v flag hx
        exact absurd hx (List.not_mem_nil _)
      · split at h
        · exact absurd h (fun h2 => Except.noConfusion h2)
        · next recs heq =>
          injection h with h
          rw [← h]
          intro key p t tab v flag hx
          obtain ⟨y, hy, hy2⟩ := List.mem_map.mp hx
          obtain ⟨cr, _, hok⟩ := mapExcept_ok_mem _ _ recs heq y hy
          obtain ⟨p2, t2, tab2, hshape⟩ :=
            fisherRowTest_ok_shape fe gids ss _ cr y hok
          rw [hshape] at hy2
          injection hy2 with hk hrec
          injection hrec with e1 e2 e3 e4 hflag
          exact hflag.symm

/-- A retained continuous row with a missing group mean forces the
continuous stage (when not skipped) to error: the z-score column of that
group is `NaN` and the chi-squared test rejects it. -/
lemma contPart_nan_err (sq : ℤ → ℚ) (F : ℕ → ℚ → ℚ) (df : List WideRow)
    (ss : List (String × ℤ))
    (h : ∃ r ∈ contRetained df (ss.map Prod.fst),
      ∃ g ∈ ss.map Prod.fst, r.mean g = none) :
    ∃ e, contPart sq F df ss (ss.map Prod.fst) false = .error e := by
  obtain ⟨r, hr, g, hg, hmean⟩ := h
  simp only [contPart, Bool.false_eq_true, if_false]
  cases hp : process_continuous_variables_mean sq df ss with
  | error e => exact ⟨e, rfl⟩
  | ok out =>
    have hchar := process_cont_ok_char sq df ss out hp
    have hcr : rowSteps sq ss (initContRow (ss.map Prod.fst) r) ∈ out := by
      rw [hchar]
      exact List.mem_map.mpr ⟨_, List.mem_map.mpr ⟨r, hr, rfl⟩, rfl⟩
    have hz : (rowSteps sq ss (initContRow (ss.map Prod.fst) r)).zCol g = none :=
      rowSteps_zCol_none sq ss _ g hmean rfl
    have hnone : (none : Option ℚ) ∈ flattenZ out (ss.map Prod.fst) := by
      unfold flattenZ
      refine List.mem_flatMap.mpr ⟨_, hcr, ?_⟩
      rw [← hz]
      exact List.mem_map.mpr ⟨g, hg, rfl⟩
    have hlen1 : 0 < out.length :=
      List.length_pos.mpr (List.ne_nil_of_mem hcr)
    have hlen2 : 0 < (flattenZ out (ss.map Prod.fst)).length :=
      List.length_pos.mpr (List.ne_nil_of_mem hnone)
    have hany : (flattenZ out (ss.map Prod.fst)).any Option.isNone = true :=
      List.any_eq_true.mpr ⟨none, hnone, rfl⟩
    obtain ⟨e, he⟩ := chi_nan_error F (flattenZ out (ss.map Prod.fst)) 1 hany
    refine ⟨e, ?_⟩
    simp only [hp]
    rw [if_pos ⟨hlen1, hlen2⟩]
    simp only [he]

/-- C1: whenever `run_test_pipeline` returns normally, the bundle contains
the key `"fisher_method-combined"` with its `p_value` and `test_statistic`
fields; and whenever the two stages together collect zero p-values, the
pipeline raises instead of returning an empty or partial bundle. -/
theorem run_test_pipeline_combined_bundle (sq : ℤ → ℚ) (F : ℕ → ℚ → ℚ)
    (fe : List (ℤ × ℤ) → FisherMethod → ℚ × ℚ) (cp : List ℚ → ℚ × ℚ)
    (json : JsonData) (skipC skipK : Bool) (seed : Option ℕ) :
    (∀ out, run_test_pipeline sq F fe cp json skipC skipK seed = .ok out →
      ∃ p t, ("fisher_method-combined", TestRecord.combined p t) ∈ out) ∧
    (∀ pc cc,
      contPart sq F (to_csv_wide json)
        (json.groups.map (fun g => (g.group_id, g.sample_size)))
        ((json.groups.map (fun g => (g.group_id, g.sample_size))).map Prod.fst)
        skipC = .ok pc →
      catPart fe (to_csv_wide json)
        (json.groups.map (fun g => (g.group_id, g.sample_size)))
        ((json.groups.map (fun g => (g.group_id, g.sample_size))).map Prod.fst)
        ((json.groups.map (fun g => (g.group_id, g.sample_size))).map Prod.snd).sum
        skipK seed = .ok cc →
      pc.1 ++ cc.1 = [] →
      ∃ e, run_test_pipeline sq F fe cp json skipC skipK seed = .error e) := by
  constructor
  · intro out hout
    simp only [run_test_pipeline] at hout
    split at hout
    · exact absurd hout (fun h2 => Except.noConfusion h2)
    · split at hout
      · exact absurd hout (fun h2 => Except.noConfusion h2)
      · split at hout
        · exact absurd hout (fun h2 => Except.noConfusion h2)
        · split at hout
          · exact absurd hout (fun h2 => Except.noConfusion h2)
          · split at hout
            · exact absurd hout (fun h2 => Except.noConfusion h2)
            · injection hout with hout
              rw [← hout]
              exact ⟨_, _, List.mem_append.mpr
                (Or.inr (List.mem_singleton.mpr rfl))⟩
  · intro pc cc h1 h2 h3
    simp only [run_test_pipeline]
    split
    · exact ⟨_, rfl⟩
    · simp only [h1, h2]
      rw [h3]
      exact ⟨_, rfl⟩

/-- Witness for C1: on the two-group bundle `jdW` with stub externals the
pipeline succeeds and its output contains the combined record; with both
stages skipped (zero p-values) it errors. -/
theorem run_test_pipeline_combined_bundle_witness :
    (∃ p t, ("fisher_method-combined", TestRecord.combined p t) ∈ bundleW) ∧
    (∃ e, run_test_pipeline sqW Fw feW cpW jdW true true none = .error e) := by
  constructor
  · exact (run_test_pipeline_combined_bundle sqW Fw feW cpW jdW false false
      none).1 bundleW (by with_unfolding_all rfl)
  · exact (run_test_pipeline_combined_bundle sqW Fw feW cpW jdW true true
      none).2 ([], []) ([], []) rfl rfl rfl

/-- C4: every `fisher_test-{i}` record in a successful pipeline output has
`test_statistic_is_odds_ratio = true` iff exactly two groups exist, and
the (seeded) Monte Carlo variant of the Fisher test is selected iff there
are more than two groups. -/
theorem run_test_pipeline_fisher_flags (sq : ℤ → ℚ) (F : ℕ → ℚ → ℚ)
    (fe : List (ℤ × ℤ) → FisherMethod → ℚ × ℚ) (cp : List ℚ → ℚ × ℚ)
    (json : JsonData) (skipC skipK : Bool) (seed : Option ℕ) :
    (∀ out, run_test_pipeline sq F fe cp json skipC skipK seed = .ok out →
      ∀ key p t tab v flag,
        (key, TestRecord.fisher p t tab v flag) ∈ out →
        (flag = true ↔ json.groups.length = 2)) ∧
    ((∃ s, chooseFisherMethod
        ((json.groups.map (fun g => (g.group_id, g.sample_size))).map Prod.fst)
        seed = FisherMethod.monteCarlo s) ↔ 2 < json.groups.length) := by
  constructor
  · intro out hout key p t tab v flag hmem
    simp only [run_test_pipeline] at hout
    split at hout
    · exact absurd hout (fun h2 => Except.noConfusion h2)
    · split at hout
      · exact absurd hout (fun h2 => Except.noConfusion h2)
      · next pc heqc =>
        split at hout
        · exact absurd hout (fun h2 => Except.noConfusion h2)
        · next cc heqk =>
          split at hout
          · exact absurd hout (fun h2 => Except.noConfusion h2)
          · split at hout
            · exact absurd hout (fun h2 => Except.noConfusion h2)
            · injection hout with hout
              rw [← hout] at hmem
              rcases List.mem_append.mp hmem with hmem1 | hmem2
              · rcases List.mem_append.mp hmem1 with hA | hB
                · obtain ⟨a, b, zs, hx⟩ := contPart_ok_mem _ _ _ _ _ _ pc heqc _ hA
                  injection hx with hx1 hx2
                  exact TestRecord.noConfusion hx2
                · have hflag := catPart_ok_flag _ _ _ _ _ _ _ cc heqk
                    key p t tab v flag hB
                  rw [hflag]
                  simp [List.length_map]
              · rcases List.mem_singleton.mp hmem2 with hx
                injection hx with hx1 hx2
                exact TestRecord.noConfusion hx2
  · unfold chooseFisherMethod
    by_cases hlen : ((json.groups.map
        (fun g => (g.group_id, g.sample_size))).map Prod.fst).length > 2
    · rw [if_pos hlen]
      refine ⟨fun _ => ?_, fun _ => ⟨seed, rfl⟩⟩
      simpa [List.length_map] using hlen
    · rw [if_neg hlen]
      refine ⟨fun hs => ?_, fun h2 => absurd ?_ hlen⟩
      · obtain ⟨s, hs⟩ := hs
        exact FisherMethod.noConfusion hs
      · simpa [List.length_map] using h2

/-- Witness for C4: the successful run on the two-group `jdW` carries a
Fisher record flagged `true`, and with two groups the exact (non Monte
Carlo) method is selected. -/
theorem run_test_pipeline_fisher_flags_witness :
    (true = true ↔ jdW.groups.length = 2) ∧
    ((∃ s, chooseFisherMethod
        ((jdW.groups.map (fun g => (g.group_id, g.sample_size))).map Prod.fst)
        none = FisherMethod.monteCarlo s) ↔ 2 < jdW.groups.length) := by
  constructor
  · exact (run_test_pipeline_fisher_flags sqW Fw feW cpW jdW false false
      none).1 bundleW (by with_unfolding_all rfl) "fisher_test-1" (1 / 2) 1
      [(1, 0), (1, 0)] "sex (m)" true
      (List.mem_cons_of_mem _ (List.mem_cons_self _ _))
  · exact (run_test_pipeline_fisher_flags sqW Fw feW cpW jdW false false
      none).2

/-- C10: the continuous engine retains any continuous row with at least
one group mean present; on such a row a group with a missing mean gets a
`NaN` z-score; the chi-squared test errors on any `NaN` in its input; and
therefore a pipeline run (continuous stage enabled) on data with a
retained row missing one group's mean raises instead of excluding the
incomplete group. -/
theorem run_test_pipeline_nan_zscore (sq : ℤ → ℚ) (F : ℕ → ℚ → ℚ)
    (fe : List (ℤ × ℤ) → FisherMethod → ℚ × ℚ) (cp : List ℚ → ℚ × ℚ) :
    (∀ (df : List WideRow) (gids : List String) (r : WideRow),
      r ∈ contRetained df gids ↔
        (r ∈ df ∧ r.VariableType = "Continuous" ∧
          ∃ g ∈ gids, (r.mean g).isSome = true)) ∧
    (∀ (df : List WideRow) (ss : List (String × ℤ)) (out : List ContRow)
      (i : ℕ) (r0 : WideRow) (g : String),
      process_continuous_variables_mean sq df ss = .ok out →
      (contRetained df (ss.map Prod.fst))[i]? = some r0 → r0.mean g = none →
      ∃ cr : ContRow, out[i]? = some cr ∧ cr.zCol g = none) ∧
    (∀ (zs : List (Option ℚ)) (s : ℚ), zs.any Option.isNone = true →
      ∃ e, chi_square_variance_test F zs s = .error e) ∧
    (∀ (json : JsonData) (skipK : Bool) (seed : Option ℕ),
      (∃ r ∈ contRetained (to_csv_wide json)
          ((json.groups.map (fun g => (g.group_id, g.sample_size))).map Prod.fst),
        ∃ g ∈ (json.groups.map (fun g => (g.group_id, g.sample_size))).map Prod.fst,
          r.mean g = none) →
      ∃ e, run_test_pipeline sq F fe cp json false skipK seed = .error e) := by
  refine ⟨?_, ?_, fun zs s h => chi_nan_error F zs s h, ?_⟩
  · intro df gids r
    unfold contRetained
    rw [List.mem_filter, List.mem_filter]
    constructor
    · rintro ⟨⟨hdf, ht⟩, hany⟩
      exact ⟨hdf, by simpa using ht, List.any_eq_true.mp hany⟩
    · rintro ⟨hdf, ht, g, hg, hs⟩
      exact ⟨⟨hdf, by simpa using ht⟩, List.any_eq_true.mpr ⟨g, hg, hs⟩⟩
  · intro df ss out i r0 g hok hr hmean
    have hchar := process_cont_ok_char sq df ss out hok
    refine ⟨rowSteps sq ss (initContRow (ss.map Prod.fst) r0), ?_, ?_⟩
    · rw [hchar, List.getElem?_map, List.getElem?_map, hr]
      rfl
    · exact rowSteps_zCol_none sq ss _ g hmean rfl
  · intro json skipK seed h
    simp only [run_test_pipeline]
    split
    · exact ⟨_, rfl⟩
    · obtain ⟨e, he⟩ := contPart_nan_err sq F (to_csv_wide json)
        (json.groups.map (fun g => (g.group_id, g.sample_size))) h
      simp only [he]
      exact ⟨e, rfl⟩

/-- Witness for C10: `rowNaNW` has its "b" mean missing; it is retained,
its z-score for "b" is `NaN`, the chi-squared test rejects
`[some 1, none]`, and the pipeline run on `jdNaN` errors. -/
theorem run_test_pipeline_nan_zscore_witness :
    (rowCont3 ∈ contRetained [rowCont3] ["a", "b"] ↔
      (rowCont3 ∈ [rowCont3] ∧ rowCont3.VariableType = "Continuous" ∧
        ∃ g ∈ ["a", "b"], (rowCont3.mean g).isSome = true)) ∧
    (∃ cr : ContRow,
      (((contRetained [rowNaNW] ["a", "b"]).map (initContRow ["a", "b"])).map
        (rowSteps sqW [("a", 1), ("b", 1)]))[0]? = some cr ∧
      cr.zCol "b" = none) ∧
    (∃ e, chi_square_variance_test Fw [some 1, none] 1 = .error e) ∧
    (∃ e, run_test_pipeline sqW Fw feW cpW jdNaN false false none =
      .error e) := by
  refine ⟨(run_test_pipeline_nan_zscore sqW Fw feW cpW).1 [rowCont3]
      ["a", "b"] rowCont3, ?_, ?_, ?_⟩
  · exact (run_test_pipeline_nan_zscore sqW Fw feW cpW).2.1 [rowNaNW]
      [("a", 1), ("b", 1)] _ 0 rowNaNW "b" (by with_unfolding_all rfl) rfl rfl
  · exact (run_test_pipeline_nan_zscore sqW Fw feW cpW).2.2.1
      [some 1, none] 1 rfl
  · exact (run_test_pipeline_nan_zscore sqW Fw feW cpW).2.2.2 jdNaN false
      none ⟨rowNaNW, List.mem_singleton.mpr rfl, "b", by simp [jdNaN], rfl⟩
